import Mathlib

/-!
# fileshare (`fs.go`): interface selection, upload coordination, listing wrapper

A shallow embedding of the functions of `fs.go` that decide how the served
address is chosen (`keys`, `readUserInput`, `selectInterface`), how an upload
request is processed (`uploadHandler`) and when the navigation header is
written (`wrapFSHandler`), followed by the properties proved about them.

Conventions of the embedding

* A Go `string` is a Lean `String`; Go compares strings byte by byte, which on
  UTF-8 text is the order of the code point sequences, so `a <= b` is
  `a.data ≤ b.data`.
* A Go `map[string]string` is the list of its entries in the order one
  iteration visits them; every property is proved for all such orders.
* `log.Fatal` ends the process: it is the outcome `fatal msg`.
* Goroutines and the `select` are modelled by the order in which their events
  reach the receiver, which is an explicit argument; so is the place of the
  collector's last append among the accesses of `uploadHandler` to the lists.
-/

namespace Fileshare

/-! ## Interface selection -/

/-- A `map[string]string` from interface name to address. -/
abbrev IPMap := List (String × String)

/-- Keys of a Go map are pairwise distinct. -/
def NodupKeys (m : IPMap) : Prop := (m.map Prod.fst).Nodup

instance (m : IPMap) : Decidable (NodupKeys m) :=
  inferInstanceAs (Decidable (m.map Prod.fst).Nodup)

/-- The map index expression `m[k]`: the zero value `""` when `k` is absent. -/
def mapIndex (m : IPMap) (k : String) : String := (m.lookup k).getD ""

/-- Go's `a <= b` on strings. -/
def strLE (a b : String) : Prop := a.data ≤ b.data

instance : DecidableRel strLE := fun a b => inferInstanceAs (Decidable (a.data ≤ b.data))

instance : IsTotal String strLE := ⟨fun a b => le_total a.data b.data⟩

instance : IsTrans String strLE := ⟨fun _ _ _ h₁ h₂ => le_trans h₁ h₂⟩

instance : IsAntisymm String strLE :=
  ⟨fun _ _ h₁ h₂ => String.ext (le_antisymm h₁ h₂)⟩

/-- Go's `a < b` on strings. -/
def strLT (a b : String) : Prop := a.data < b.data

instance : DecidableRel strLT := fun a b => inferInstanceAs (Decidable (a.data < b.data))

/-- The library call `sort.Strings`: ascending order of `strLE`. -/
def sortStrings (l : List String) : List String := l.insertionSort strLE

/-- The function `keys`: collect the keys in iteration order, then sort them. -/
def keys (m : IPMap) : List String :=
  let keys := m.map Prod.fst
  sortStrings keys

/-- The number of keys of the map that come strictly before `name`: the
position of `name` in the sorted order of the keys. -/
def rank (m : IPMap) (name : String) : Nat :=
  (m.map Prod.fst).countP (fun k => decide (strLT k name))

/-- A channel of `int` as the receiver sees it: the values still buffered and
whether the sender has closed it. -/
structure Chan where
  buf : List Int
  closed : Bool
deriving DecidableEq, Repr

/-- The receive `v, ok := <-ch` on a channel on which a receive is ready. -/
def Chan.recv (ch : Chan) : Int × Bool :=
  match ch.buf with
  | v :: _ => (v, true)
  | [] => (0, false)

/-- The function `readUserInput`, as the state in which it leaves `ch`.
`scan` is what `fmt.Scanf("%d", &idx)` did with the console line: `some v` when
it parsed the integer `v` and stored it in `idx`, `none` when the scan failed
and left `idx` untouched. The error `Scanf` returns is dropped by the code. -/
def readUserInput (scan : Option Int) : Chan :=
  let idx : Int := 0
  let idx := match scan with
    | some v => v
    | none => idx
  { buf := [idx], closed := true }

/-- The values a Go `int` of `bits` bits can hold. -/
def fitsInt (bits : Nat) (i : Int) : Prop :=
  -(2 : Int) ^ (bits - 1) ≤ i ∧ i < (2 : Int) ^ (bits - 1)

instance (bits : Nat) (i : Int) : Decidable (fitsInt bits i) :=
  inferInstanceAs (Decidable (-(2 : Int) ^ (bits - 1) ≤ i ∧ i < (2 : Int) ^ (bits - 1)))

/-- The library call `fmt.Scanf("%d", &idx)` on a console line that spells the
integer `typed`, where `idx` is an `int` of `bits` bits: `some typed` when the
number fits, `none` when it does not (the scan fails with a range error and
leaves `idx` untouched). -/
def scanfInt (bits : Nat) (typed : Int) : Option Int :=
  if fitsInt bits typed then some typed else none

/-- Which case of the `select` in `selectInterface` becomes ready first. -/
inductive Race where
  | timerFirst
  | inputFirst (scan : Option Int)
deriving DecidableEq, Repr

/-- What `selectInterface` does besides computing its result. -/
inductive Effect where
  | goReadUserInput
  | timeAfter (seconds : Int)
  | logTimeout (name addr : String)
  | printUsing (name addr : String)
deriving DecidableEq, Repr

/-- How a call ends. -/
inductive Outcome where
  | returned (ip : String)
  | fatal (msg : String)
  | indexOutOfRange
deriving DecidableEq, Repr

/-- A finished call: its effects in order, and how it ended. -/
structure Run where
  effects : List Effect
  outcome : Outcome
deriving DecidableEq, Repr

/-- The function `selectInterface`. `timeout` is the global set by the `-t`
flag. -/
def selectInterface (timeout : Int) (ips : IPMap) (race : Race) : Run :=
  let length := ips.length
  if length < 1 then
    ⟨[], .fatal "Can not get local ip"⟩
  else if length = 1 then
    match ips with
    | (_, v) :: _ => ⟨[], .returned v⟩
    | [] => ⟨[], .returned ""⟩
  else
    let keys := keys ips
    match race with
    | .timerFirst =>
      match keys[0]? with
      | some k0 =>
        ⟨[.goReadUserInput, .timeAfter timeout, .logTimeout k0 (mapIndex ips k0)],
          .returned (mapIndex ips k0)⟩
      | none => ⟨[.goReadUserInput, .timeAfter timeout], .indexOutOfRange⟩
    | .inputFirst scan =>
      let (input, ok) := (readUserInput scan).recv
      if ok && decide (input ≥ 0) && decide (input < (keys.length : Int)) then
        match keys[input.toNat]? with
        | some k =>
          ⟨[.goReadUserInput, .timeAfter timeout, .printUsing k (mapIndex ips k)],
            .returned (mapIndex ips k)⟩
        | none => ⟨[.goReadUserInput, .timeAfter timeout], .indexOutOfRange⟩
      else
        ⟨[.goReadUserInput, .timeAfter timeout], .fatal "Invalid index."⟩

/-- A host with a wired and a wireless interface, in the order one iteration
of the map happens to visit them. -/
def twoNICs : IPMap := [("wlan0", "192.168.1.7"), ("eth0", "10.0.0.2")]

/-! ## Upload coordination -/

/-- File contents and request bodies are byte sequences. -/
abbrev Bytes := List Nat

/-- The upload root as a map from path to file contents. -/
abbrev Disk := String → Option Bytes

/-- The constant `maxUploadFileNum`. -/
def maxUploadFileNum : Nat := 5

/-- The local type `upStat` of `uploadHandler`. -/
structure upStat where
  name : String
  isOk : Bool
deriving DecidableEq, Repr

/-- A `multipart.File` as `io.Copy` reads it: the bytes the client sent and,
when reading breaks off, the number of bytes delivered before the read error. -/
structure Stream where
  bytes : Bytes
  readErrAt : Option Nat
deriving DecidableEq, Repr

/-- What `r.FormFile(name)` returns: an error when the field is absent,
otherwise the file and the `Filename` of its header. -/
inductive FormFile where
  | err
  | ok (file : Stream) (filename : String)
deriving DecidableEq, Repr

/-- What the worker depends on outside the request: the `-u` flag, the library
function `filepath.Join`, and the faults of the file system (the paths on which
`os.OpenFile` fails, and per path the number of bytes a write accepts before
it fails, if it fails). -/
structure Env where
  upDirectory : String
  join : String → String → String
  openErr : String → Bool
  writeErrAt : String → Option Nat

/-- The flags of `os.OpenFile` that matter to a writer. -/
inductive OpenFlag where
  | O_WRONLY
  | O_CREATE
  | O_TRUNC
deriving DecidableEq, Repr

/-- The library call `os.OpenFile(path, flag, 0666)` for writing: `none` when it
fails, otherwise the disk once the file is open with the write offset at 0. An
existing file keeps its contents unless `O_TRUNC` is given; a missing file is
created empty when `O_CREATE` is given. -/
def osOpenFile (env : Env) (disk : Disk) (path : String) (flag : List OpenFlag) :
    Option Disk :=
  if env.openErr path then none
  else
    match disk path with
    | some old =>
      if OpenFlag.O_TRUNC ∈ flag then some (fun p => if p = path then some [] else disk p)
      else some (fun p => if p = path then some old else disk p)
    | none =>
      if OpenFlag.O_CREATE ∈ flag then some (fun p => if p = path then some [] else disk p)
      else none

/-- Contents of a file after `data` is written over `old` from offset 0. -/
def writeAtStart (old data : Bytes) : Bytes := data ++ old.drop data.length

/-- The library call `io.Copy(f, file)` on a destination opened at offset 0 on
`path`: the disk afterwards, the number of bytes written and whether it
returned an error. Everything read before a read error is written; a write
error cuts the written bytes short. -/
def ioCopy (env : Env) (disk : Disk) (path : String) (file : Stream) : Disk × Nat × Bool :=
  let readable : Bytes := match file.readErrAt with
    | some k => file.bytes.take k
    | none => file.bytes
  let written : Bytes := match env.writeErrAt path with
    | some k => readable.take k
    | none => readable
  let failed := file.readErrAt.isSome || decide (written.length < readable.length)
  let old := (disk path).getD []
  (fun p => if p = path then some (writeAtStart old written) else disk p, written.length, failed)

/-- One run of the worker goroutine of `uploadHandler`: the disk it leaves and
the statuses it sent on `upStatCh`. -/
structure WorkerRun where
  disk : Disk
  sent : List upStat

/-- The worker goroutine `func(idx int)` of `uploadHandler`; `form idx` is the
result of `r.FormFile(fmt.Sprintf("upfile%d", idx))`. -/
def worker (env : Env) (form : Nat → FormFile) (disk : Disk) (idx : Nat) : WorkerRun :=
  match form idx with
  | .err => ⟨disk, []⟩
  | .ok file fname =>
    if fname = "" then ⟨disk, []⟩
    else
      let upFilePath := env.join env.upDirectory fname
      match osOpenFile env disk upFilePath [.O_WRONLY, .O_CREATE] with
      | none => ⟨disk, [⟨fname, false⟩]⟩
      | some disk =>
        let (disk, _, _) := ioCopy env disk upFilePath file
        ⟨disk, [⟨fname, true⟩]⟩

/-- The collector goroutine of `uploadHandler`: the strings `okFiles` and
`failedFiles` after it has received `stats` in that order. -/
def collector (stats : List upStat) : String × String :=
  stats.foldl
    (fun acc v => if v.isOk then (acc.1 ++ ("," ++ v.name), acc.2)
      else (acc.1, acc.2 ++ ("," ++ v.name)))
    ("", "")

/-- The library call `strings.Replace(s, ",", "", 1)`: drop the first comma. -/
def replaceFirstComma (s : String) : String := ⟨s.data.erase ','⟩

/-- The workers of one request, run one after the other in the order `order`:
the disk they leave and, in order, what they sent. -/
def runWorkers (env : Env) (form : Nat → FormFile) (disk : Disk) :
    List Nat → Disk × List upStat
  | [] => (disk, [])
  | idx :: rest =>
    let w := worker env form disk idx
    let r := runWorkers env form w.disk rest
    (r.1, w.sent ++ r.2)

/-- The page `uploadHandler` renders: the upload form, or the result page with
the fields `OkFiles` and `FailedFiles` of `UpResult`. -/
inductive UploadPage where
  | uploadForm
  | upResult (OkFiles FailedFiles : String)
deriving DecidableEq, Repr

/-- One access to the variables `okFiles` and `failedFiles` once `wg.Wait()`
has returned. The handler makes five, in this order: the read and the write of
`okFiles = strings.Replace(okFiles, ",", "", 1)`, the same two for
`failedFiles`, and the read of both for the `UpResult` it renders. The
collector makes two for the status it received last: the read and the write of
`okFiles += "," + v.name`, or of `failedFiles` when the status is a failure. -/
inductive Access where
  | readOk
  | writeOk
  | readFailed
  | writeFailed
  | render
  | collectorRead
  | collectorWrite
deriving DecidableEq, Repr

/-- The two shared variables, the value each goroutine has read and not yet
written back, and the two fields of the `UpResult` once rendered. -/
structure Shared where
  okFiles : String
  failedFiles : String
  handlerTmp : String
  collectorTmp : String
  OkFiles : String
  FailedFiles : String
deriving DecidableEq, Repr

/-- The effect of one access; `last` is the status the collector received
last, if any was sent. -/
def access (last : Option upStat) (s : Shared) : Access → Shared
  | .readOk => { s with handlerTmp := s.okFiles }
  | .writeOk => { s with okFiles := replaceFirstComma s.handlerTmp }
  | .readFailed => { s with handlerTmp := s.failedFiles }
  | .writeFailed => { s with failedFiles := replaceFirstComma s.handlerTmp }
  | .render => { s with OkFiles := s.okFiles, FailedFiles := s.failedFiles }
  | .collectorRead =>
    match last with
    | none => s
    | some v => { s with collectorTmp := if v.isOk then s.okFiles else s.failedFiles }
  | .collectorWrite =>
    match last with
    | none => s
    | some v =>
      if v.isOk then { s with okFiles := s.collectorTmp ++ ("," ++ v.name) }
      else { s with failedFiles := s.collectorTmp ++ ("," ++ v.name) }

/-- The handler's accesses in program order. -/
def handlerAccesses : List Access :=
  [.readOk, .writeOk, .readFailed, .writeFailed, .render]

/-- The interleaving in which the collector's write comes after `pw` of the
handler's accesses and the collector's read after `pr` of them (and before the
collector's write). `pr = pw = 0` is the run in which the collector has
finished before the handler goes on. -/
def interleave (pr pw : Nat) : List Access :=
  let w := min pw handlerAccesses.length
  let r := min pr w
  let withWrite := handlerAccesses.take w ++ [.collectorWrite] ++ handlerAccesses.drop w
  withWrite.take r ++ [.collectorRead] ++ withWrite.drop r

/-- The function `uploadHandler`. The five workers are spawned for
`idx = 1 .. maxUploadFileNum`; `order` is the order in which they run. Every
send on the unbuffered `upStatCh` completes when the collector receives it,
and the collector receives a status only after it has appended the one before;
so when `wg.Wait()` returns, every status but the last received has been
appended. Nothing orders the append of the last one before the handler's own
accesses: `pr` and `pw` say where the collector's read and write fall among
them (see `interleave`). Returns the page, the statuses in the order sent, and
the disk. -/
def uploadHandler (env : Env) (method : String) (form : Nat → FormFile) (disk : Disk)
    (order : List Nat) (pr pw : Nat) : UploadPage × List upStat × Disk :=
  if method = "GET" then (.uploadForm, [], disk)
  else
    let r := runWorkers env form disk order
    let (okFiles, failedFiles) := collector r.2.dropLast
    let s := (interleave pr pw).foldl (access r.2.getLast?)
      ⟨okFiles, failedFiles, "", "", "", ""⟩
    (.upResult s.OkFiles s.FailedFiles, r.2, r.1)

/-- The slot indices for which `uploadHandler` spawns a worker. -/
def slotIndices : List Nat := List.range' 1 maxUploadFileNum

/-- The filename of slot `idx` when the slot is populated (the field is present
and its filename is not empty). -/
def slotName (form : Nat → FormFile) (idx : Nat) : Option String :=
  match form idx with
  | .err => none
  | .ok _ fname => if fname = "" then none else some fname

/-- Whether the destination of `fname` cannot be opened. -/
def destFails (env : Env) (fname : String) : Bool :=
  env.openErr (env.join env.upDirectory fname)

/-- Filenames of the populated slots, in slot order. -/
def populatedNames (form : Nat → FormFile) : List String :=
  slotIndices.filterMap (slotName form)

/-- The names among the statuses `stats` with the given verdict, in order. -/
def namesWith (isOk : Bool) (stats : List upStat) : List String :=
  (stats.filter (fun v => v.isOk == isOk)).map upStat.name

/-- The status slot `idx` is due: none for an empty slot, otherwise its
filename with the verdict `false` exactly when its destination cannot be
opened. -/
def slotStat (env : Env) (form : Nat → FormFile) (idx : Nat) : Option upStat :=
  (slotName form idx).map (fun f => ⟨f, !destFails env f⟩)

/-- An upload root `up` in which `ro.txt` cannot be opened for writing. -/
def demoEnv : Env :=
  ⟨"up", fun dir f => dir ++ "/" ++ f, fun p => decide (p = "up/ro.txt"), fun _ => none⟩

/-- The same upload root on a full disk: every file opens, and a write fails
after one byte. -/
def fullDiskEnv : Env :=
  ⟨"up", fun dir f => dir ++ "/" ++ f, fun _ => false, fun _ => some 1⟩

/-- An upload root that already holds a five byte file `a.txt`. -/
def demoDisk : Disk := fun p => if p = "up/a.txt" then some [1, 2, 3, 4, 5] else none

/-- A request with `upfile1 = a.txt` (two bytes), `upfile2 = ro.txt`,
`upfile3 = b.txt` whose body breaks off with a read error after one of its
three bytes, `upfile4` present with an empty filename, and no `upfile5`. -/
def demoForm : Nat → FormFile := fun idx =>
  if idx = 1 then .ok ⟨[9, 9], none⟩ "a.txt"
  else if idx = 2 then .ok ⟨[7], none⟩ "ro.txt"
  else if idx = 3 then .ok ⟨[7, 8, 9], some 1⟩ "b.txt"
  else if idx = 4 then .ok ⟨[], none⟩ ""
  else .err

/-! ## The listing wrapper -/

/-- The types `FromTo` and `Head`, flattened. -/
structure Head where
  FromPC : String
  ToPC : String
  NoQrcode : Bool
  ToQrcode : String
  ToIndex : String
  Title : String
  FontSize : Nat
deriving DecidableEq, Repr

/-- The route constants. -/
def qrPattern : String := "/qrcode"

/-- See `qrPattern`. -/
def indexPattern : String := "/index"

/-- See `qrPattern`. -/
def uploadPattern : String := "/upload"

/-- What the handler returned by `wrapFSHandler` does to the response, in
order: executing the `customHead` template on a `Head`, and calling the
wrapped handler. -/
inductive HEvent where
  | executeHead (head : Head)
  | serveHTTP
deriving DecidableEq, Repr

/-- The handler returned by `wrapFSHandler(h)`, applied to a request whose
`RequestURI` is `requestURI`. `baseURI` and `noQRCode` are the globals. `none`
is the run-time panic of `s[len(s)-1]` on an empty `s`. -/
def wrapFSHandler (baseURI : String) (noQRCode : Bool) (requestURI : String) :
    Option (List HEvent) :=
  let s := requestURI.data
  match s[s.length - 1]? with
  | none => none
  | some c =>
    if c = '/' then
      some [.executeHead ⟨"", baseURI ++ uploadPattern, noQRCode, baseURI ++ qrPattern,
              baseURI ++ indexPattern, "Get Files", 300⟩,
            .serveHTTP]
    else
      some [.serveHTTP]

/-- The path of a request: for a request target `path?query`, as an HTTP client
sends it, `net/http` keeps the whole target in `RequestURI` and the part before
the first `?` is the path. -/
def requestPath (requestURI : String) : String := ⟨requestURI.data.takeWhile (· ≠ '?')⟩

/-- Whether a string ends in the path separator. -/
def endsInSlash (s : String) : Bool := s.data.getLast? == some '/'

/-! ## The listing filter -/

/-- The process-wide listing configuration. -/
structure ListingFilter where
  suffixMatch : Option String
  substringMatch : Option String
  showDirectories : Bool
deriving DecidableEq, Repr

/-- A directory entry. -/
structure DirEntry where
  name : String
  isDir : Bool
deriving DecidableEq, Repr

/-- Modelled from the spec: the function `FileServer`, whose directory listing
applies the filter, is not among the sources. Per the spec, a configured suffix
rule requires the name to end with it, a configured substring rule requires the
name to contain it, absent rules impose nothing, and directories are excluded
when showing directories is disabled. -/
def entryListed (f : ListingFilter) (e : DirEntry) : Bool :=
  if e.isDir && !f.showDirectories then false
  else
    let suffixOk := match f.suffixMatch with
      | none => true
      | some s => decide (s.data <:+ e.name.data)
    let substringOk := match f.substringMatch with
      | none => true
      | some s => decide (s.data <:+: e.name.data)
    suffixOk && substringOk

/-- Modelled from the spec: the listing of a directory is its entries, in
order, that pass the filter. -/
def dirList (f : ListingFilter) (entries : List DirEntry) : List DirEntry :=
  entries.filter (entryListed f)

/-! ### Order facts about `strLE` -/

theorem strLE_iff_le (a b : String) : strLE a b ↔ a ≤ b :=
  String.le_iff_toList_le.symm

theorem keys_sorted (m : IPMap) : List.Sorted strLE (keys m) :=
  List.sorted_insertionSort strLE _

theorem keys_perm (m : IPMap) : (keys m).Perm (m.map Prod.fst) :=
  List.perm_insertionSort strLE _

theorem keys_length (m : IPMap) : (keys m).length = m.length := by
  simpa using (keys_perm m).length_eq

theorem mem_keys {m : IPMap} {k : String} : k ∈ keys m ↔ k ∈ m.map Prod.fst :=
  (keys_perm m).mem_iff

/-- The sorted key list does not depend on the order in which the map is
iterated, nor on the sorting algorithm: it is the only ascending arrangement
of the keys. -/
theorem keys_unique (m : IPMap) (l : List String) (hs : List.Sorted strLE l)
    (hp : l.Perm (m.map Prod.fst)) : l = keys m :=
  List.eq_of_perm_of_sorted (hp.trans (keys_perm m).symm) hs (keys_sorted m)

theorem keys_iteration_order (m₁ m₂ : IPMap) (h : m₁.Perm m₂) : keys m₁ = keys m₂ :=
  keys_unique m₂ (keys m₁) (keys_sorted m₁) ((keys_perm m₁).trans (h.map _))

/-- Indexing the map at one of its keys yields an entry of the map. -/
theorem mapIndex_mem {m : IPMap} {k : String} (h : k ∈ m.map Prod.fst) :
    (k, mapIndex m k) ∈ m := by
  induction m with
  | nil => simp at h
  | cons p t ih =>
    obtain ⟨k', v⟩ := p
    by_cases hk : k = k'
    · subst hk
      simp [mapIndex, List.lookup]
    · have hne : (k == k') = false := by simpa using hk
      have ht : k ∈ t.map Prod.fst := by
        simp only [List.map_cons, List.mem_cons] at h
        rcases h with h | h
        · exact absurd h hk
        · exact h
      have := ih ht
      simp only [mapIndex, List.lookup, hne] at this ⊢
      exact List.mem_cons_of_mem _ this

/-! ### Facts about `selectInterface` -/

theorem keys_head {m : IPMap} (h : 2 ≤ m.length) :
    ∃ name, (keys m)[0]? = some name ∧ (name, mapIndex m name) ∈ m ∧
      ∀ k ∈ m.map Prod.fst, name ≤ k := by
  have hlen := keys_length m
  have hs := keys_sorted m
  have hmem : ∀ k, k ∈ keys m ↔ k ∈ m.map Prod.fst := fun k => mem_keys
  cases hk : keys m with
  | nil => rw [hk] at hlen; simp at hlen; omega
  | cons name rest =>
    rw [hk] at hs hmem
    refine ⟨name, by simp, mapIndex_mem ((hmem name).1 (List.mem_cons_self _ _)), ?_⟩
    intro k hkm
    have hk' := (hmem k).2 hkm
    rw [List.mem_cons] at hk'
    rcases hk' with rfl | hk'
    · exact le_refl _
    · exact (strLE_iff_le _ _).1 (List.rel_of_sorted_cons hs k hk')

theorem selectInterface_default {timeout : Int} {ips : IPMap} (h : 2 ≤ ips.length)
    (race : Race) :
    selectInterface timeout ips race =
      match race with
      | .timerFirst =>
        match (keys ips)[0]? with
        | some k0 =>
          ⟨[.goReadUserInput, .timeAfter timeout, .logTimeout k0 (mapIndex ips k0)],
            .returned (mapIndex ips k0)⟩
        | none => ⟨[.goReadUserInput, .timeAfter timeout], .indexOutOfRange⟩
      | .inputFirst scan =>
        if decide ((scan.getD 0) ≥ 0) && decide ((scan.getD 0) < ((keys ips).length : Int)) then
          match (keys ips)[(scan.getD 0).toNat]? with
          | some k =>
            ⟨[.goReadUserInput, .timeAfter timeout, .printUsing k (mapIndex ips k)],
              .returned (mapIndex ips k)⟩
          | none => ⟨[.goReadUserInput, .timeAfter timeout], .indexOutOfRange⟩
        else
          ⟨[.goReadUserInput, .timeAfter timeout], .fatal "Invalid index."⟩ := by
  have h1 : ¬ ips.length < 1 := by omega
  have h2 : ¬ ips.length = 1 := by omega
  cases race with
  | timerFirst => simp [selectInterface, h1, h2]
  | inputFirst scan =>
    cases scan <;> simp [selectInterface, h1, h2, readUserInput, Chan.recv]

/-- In a strictly ascending list the element at position `i` has exactly `i`
elements before it in the order. -/
theorem countP_lt_of_sorted {α : Type} [LinearOrder α] :
    ∀ (l : List α) (i : Nat) (x : α), l.Sorted (· < ·) → l[i]? = some x →
      l.countP (fun y => decide (y < x)) = i
  | [], i, x, _, h => by simp at h
  | a :: t, 0, x, hs, h => by
    have hx : a = x := by simpa using h
    subst hx
    have ht : t.countP (fun y => decide (y < a)) = 0 := by
      rw [List.countP_eq_zero]
      intro b hb
      have := List.rel_of_sorted_cons hs b hb
      simpa using le_of_lt this
    simp [List.countP_cons, ht]
  | a :: t, j + 1, x, hs, h => by
    have hx : t[j]? = some x := by simpa using h
    have hmem : x ∈ t := List.getElem?_mem hx
    have hax : a < x := List.rel_of_sorted_cons hs x hmem
    have ih := countP_lt_of_sorted t j x hs.of_cons hx
    simp [List.countP_cons, ih, hax]

theorem rank_keys_get {m : IPMap} (hk : NodupKeys m) {i : Nat} {name : String}
    (h : (keys m)[i]? = some name) : rank m name = i := by
  have hnd : (keys m).Nodup := (keys_perm m).nodup_iff.2 hk
  have hs : ((keys m).map String.data).Sorted (· < ·) := by
    unfold List.Sorted
    rw [List.pairwise_map]
    refine ((keys_sorted m).and hnd).imp ?_
    intro a b hab
    exact lt_of_le_of_ne hab.1 (fun he => hab.2 (String.ext he))
  have hget : ((keys m).map String.data)[i]? = some name.data := by
    simp [List.getElem?_map, h]
  have hc := countP_lt_of_sorted _ i name.data hs hget
  rw [List.countP_map] at hc
  unfold rank
  rw [← (keys_perm m).countP_eq]
  exact hc

/-- The timer branch of the `select`, on a mapping with at least two entries. -/
theorem timerFirst_run (timeout : Int) {ips : IPMap} (h : 2 ≤ ips.length) :
    ∃ name, (keys ips)[0]? = some name ∧
      (name, mapIndex ips name) ∈ ips ∧
      (∀ k ∈ ips.map Prod.fst, name ≤ k) ∧
      selectInterface timeout ips .timerFirst =
        ⟨[.goReadUserInput, .timeAfter timeout, .logTimeout name (mapIndex ips name)],
          .returned (mapIndex ips name)⟩ := by
  obtain ⟨name, h0, hmem, hmin⟩ := keys_head h
  refine ⟨name, h0, hmem, hmin, ?_⟩
  rw [selectInterface_default h]
  simp only [h0]

/-- The input branch of the `select` when the value received is in range. -/
theorem inputFirst_run_valid (timeout : Int) {ips : IPMap} (h : 2 ≤ ips.length)
    (scan : Option Int) (h0 : 0 ≤ scan.getD 0) (hn : scan.getD 0 < (ips.length : Int)) :
    ∃ name, (keys ips)[(scan.getD 0).toNat]? = some name ∧
      (name, mapIndex ips name) ∈ ips ∧
      selectInterface timeout ips (.inputFirst scan) =
        ⟨[.goReadUserInput, .timeAfter timeout, .printUsing name (mapIndex ips name)],
          .returned (mapIndex ips name)⟩ := by
  have hlen := keys_length ips
  have hlt : (scan.getD 0).toNat < (keys ips).length := by omega
  refine ⟨(keys ips)[(scan.getD 0).toNat], List.getElem?_eq_getElem hlt, ?_, ?_⟩
  · exact mapIndex_mem (mem_keys.1 (List.getElem_mem _))
  · rw [selectInterface_default h]
    have hc : (decide (scan.getD 0 ≥ 0) &&
        decide (scan.getD 0 < ((keys ips).length : Int))) = true := by
      simp [h0, hlen, hn]
    simp only [hc, if_true, List.getElem?_eq_getElem hlt]

/-- The input branch of the `select` when the value received is out of range. -/
theorem inputFirst_run_invalid (timeout : Int) {ips : IPMap} (h : 2 ≤ ips.length)
    (scan : Option Int) (hbad : scan.getD 0 < 0 ∨ (ips.length : Int) ≤ scan.getD 0) :
    selectInterface timeout ips (.inputFirst scan) =
      ⟨[.goReadUserInput, .timeAfter timeout], .fatal "Invalid index."⟩ := by
  have hlen := keys_length ips
  rw [selectInterface_default h]
  have hc : (decide (scan.getD 0 ≥ 0) &&
      decide (scan.getD 0 < ((keys ips).length : Int))) = false := by
    rw [hlen]
    rcases hbad with hneg | hbig
    · simp [hneg]
    · simp [hbig]
  simp only [hc]
  rfl

/-- C1: for every mapping with at least two entries, when the timer fires
before any operator input, `selectInterface` returns `ips[keys(ips)[0]]`, the
address mapped to the lexicographically smallest interface name, after starting
the reader and the timer and logging the timeout. -/
theorem selectInterface_timeout (timeout : Int) (ips : IPMap) (h : 2 ≤ ips.length) :
    ∃ name, (keys ips)[0]? = some name ∧
      (name, mapIndex ips name) ∈ ips ∧
      (∀ k ∈ ips.map Prod.fst, name ≤ k) ∧
      selectInterface timeout ips .timerFirst =
        ⟨[.goReadUserInput, .timeAfter timeout, .logTimeout name (mapIndex ips name)],
          .returned (mapIndex ips name)⟩ :=
  timerFirst_run timeout h

/-- The timer branch on a host with two interfaces. -/
theorem selectInterface_timeout_witness :
    ∃ name, (keys twoNICs)[0]? = some name ∧
      (name, mapIndex twoNICs name) ∈ twoNICs ∧
      (∀ k ∈ twoNICs.map Prod.fst, name ≤ k) ∧
      selectInterface 5 twoNICs .timerFirst =
        ⟨[.goReadUserInput, .timeAfter 5, .logTimeout name (mapIndex twoNICs name)],
          .returned (mapIndex twoNICs name)⟩ :=
  selectInterface_timeout 5 twoNICs (by decide)

/-- C2 (as stated, refuted): with two interfaces on a 64 bit host, the operator
types the integer 99999999999999999999 before the timer fires. It is an index
`≥ n`, yet `selectInterface` is not fatal: the number does not fit an `int`,
the scan fails, `idx` keeps 0 and the address of `eth0` is returned. -/
theorem selectInterface_overflow_not_fatal :
    (twoNICs.length : Int) ≤ 99999999999999999999 ∧
    scanfInt 64 99999999999999999999 = none ∧
    selectInterface 5 twoNICs (.inputFirst (scanfInt 64 99999999999999999999)) =
        ⟨[.goReadUserInput, .timeAfter 5, .printUsing "eth0" "10.0.0.2"],
          .returned "10.0.0.2"⟩ ∧
    ¬ ∃ msg, (selectInterface 5 twoNICs
        (.inputFirst (scanfInt 64 99999999999999999999))).outcome = .fatal msg := by
  have h : selectInterface 5 twoNICs (.inputFirst (scanfInt 64 99999999999999999999)) =
      ⟨[.goReadUserInput, .timeAfter 5, .printUsing "eth0" "10.0.0.2"],
        .returned "10.0.0.2"⟩ := by decide
  refine ⟨by decide, by decide, h, ?_⟩
  rintro ⟨msg, hmsg⟩
  rw [h] at hmsg
  cases hmsg

/-- C2 (amended): for every mapping with `n ≥ 2` entries and every integer `i`
that fits an `int`, typed by the operator before the timer fires: when
`0 ≤ i < n`, `selectInterface` returns `ips[keys(ips)[i]]`, the address of the
name with exactly `i` names before it in lexicographic order; when `i < 0` or
`i ≥ n`, it ends in the fatal error "Invalid index." and returns no address. -/
theorem selectInterface_input (timeout : Int) (ips : IPMap) (bits : Nat) (i : Int)
    (hk : NodupKeys ips) (h : 2 ≤ ips.length) (hfit : fitsInt bits i) :
    (0 ≤ i ∧ i < (ips.length : Int) →
      ∃ name, (keys ips)[i.toNat]? = some name ∧
        rank ips name = i.toNat ∧
        (name, mapIndex ips name) ∈ ips ∧
        selectInterface timeout ips (.inputFirst (scanfInt bits i)) =
          ⟨[.goReadUserInput, .timeAfter timeout, .printUsing name (mapIndex ips name)],
            .returned (mapIndex ips name)⟩) ∧
    (i < 0 ∨ (ips.length : Int) ≤ i →
      selectInterface timeout ips (.inputFirst (scanfInt bits i)) =
        ⟨[.goReadUserInput, .timeAfter timeout], .fatal "Invalid index."⟩) := by
  have hscan : scanfInt bits i = some i := by simp [scanfInt, hfit]
  rw [hscan]
  constructor
  · rintro ⟨h0, hn⟩
    obtain ⟨name, hget, hmem, hrun⟩ := inputFirst_run_valid timeout h (some i) h0 hn
    exact ⟨name, hget, rank_keys_get hk hget, hmem, hrun⟩
  · intro hbad
    exact inputFirst_run_invalid timeout h (some i) hbad

/-- The operator picks index 1 on a 64 bit host with two interfaces. -/
theorem selectInterface_input_witness :
    (0 ≤ (1 : Int) ∧ (1 : Int) < (twoNICs.length : Int) →
      ∃ name, (keys twoNICs)[(1 : Int).toNat]? = some name ∧
        rank twoNICs name = (1 : Int).toNat ∧
        (name, mapIndex twoNICs name) ∈ twoNICs ∧
        selectInterface 5 twoNICs (.inputFirst (scanfInt 64 1)) =
          ⟨[.goReadUserInput, .timeAfter 5, .printUsing name (mapIndex twoNICs name)],
            .returned (mapIndex twoNICs name)⟩) ∧
    ((1 : Int) < 0 ∨ (twoNICs.length : Int) ≤ 1 →
      selectInterface 5 twoNICs (.inputFirst (scanfInt 64 1)) =
        ⟨[.goReadUserInput, .timeAfter 5], .fatal "Invalid index."⟩) :=
  selectInterface_input 5 twoNICs 64 1 (by decide) (by decide) (by decide)

/-- C3 (as stated, refuted): with two interfaces and a console line that does
not parse as an integer arriving before the timer, `selectInterface` is not
fatal: it returns the address of `eth0`, the first name in sorted order. -/
theorem selectInterface_malformed_not_fatal :
    selectInterface 5 twoNICs (.inputFirst none) =
        ⟨[.goReadUserInput, .timeAfter 5, .printUsing "eth0" "10.0.0.2"],
          .returned "10.0.0.2"⟩ ∧
      ¬ ∃ msg, (selectInterface 5 twoNICs (.inputFirst none)).outcome = .fatal msg := by
  have h : selectInterface 5 twoNICs (.inputFirst none) =
      ⟨[.goReadUserInput, .timeAfter 5, .printUsing "eth0" "10.0.0.2"],
        .returned "10.0.0.2"⟩ := by decide
  refine ⟨h, ?_⟩
  rintro ⟨msg, hmsg⟩
  rw [h] at hmsg
  cases hmsg

/-- C3 (amended): for every mapping with at least two entries, when operator
input arrives before the timer and the console read does not parse as an
integer, `idx` keeps its zero value 0 and `selectInterface` returns
`ips[keys(ips)[0]]`, the address of the lexicographically smallest interface
name, without a fatal error. -/
theorem selectInterface_malformed_input (timeout : Int) (ips : IPMap) (h : 2 ≤ ips.length) :
    ∃ name, (keys ips)[0]? = some name ∧
      (name, mapIndex ips name) ∈ ips ∧
      (∀ k ∈ ips.map Prod.fst, name ≤ k) ∧
      selectInterface timeout ips (.inputFirst none) =
        ⟨[.goReadUserInput, .timeAfter timeout, .printUsing name (mapIndex ips name)],
          .returned (mapIndex ips name)⟩ := by
  obtain ⟨name, h0, _, hmin⟩ := keys_head h
  obtain ⟨name', hget, hmem, hrun⟩ :=
    inputFirst_run_valid timeout h none (by simp) (by simp; omega)
  have hnn : name' = name := by
    simp only [Option.getD_none, Int.toNat_zero, h0, Option.some.injEq] at hget
    exact hget.symm
  subst hnn
  exact ⟨name', h0, hmem, hmin, hrun⟩

/-- A console line that does not parse, on a host with two interfaces. -/
theorem selectInterface_malformed_input_witness :
    ∃ name, (keys twoNICs)[0]? = some name ∧
      (name, mapIndex twoNICs name) ∈ twoNICs ∧
      (∀ k ∈ twoNICs.map Prod.fst, name ≤ k) ∧
      selectInterface 9 twoNICs (.inputFirst none) =
        ⟨[.goReadUserInput, .timeAfter 9, .printUsing name (mapIndex twoNICs name)],
          .returned (mapIndex twoNICs name)⟩ :=
  selectInterface_malformed_input 9 twoNICs (by decide)

/-- C4: for every mapping with exactly one entry `(name, addr)`,
`selectInterface` returns `addr` and has no effect: it starts neither the
reader `readUserInput` nor the timer, whatever the console would deliver. -/
theorem selectInterface_single (timeout : Int) (name addr : String) (race : Race) :
    selectInterface timeout [(name, addr)] race = ⟨[], .returned addr⟩ := by
  simp [selectInterface]

/-- C5: for the empty mapping `selectInterface` ends in the fatal error
"Can not get local ip" and returns no address; for every non-empty mapping,
every address it returns is a value of the mapping, and no call runs past the
guarded index expressions. -/
theorem selectInterface_empty_or_value :
    (∀ (timeout : Int) (race : Race),
      selectInterface timeout [] race = ⟨[], .fatal "Can not get local ip"⟩) ∧
    (∀ (timeout : Int) (ips : IPMap) (race : Race), ips ≠ [] →
      (∀ a, (selectInterface timeout ips race).outcome = .returned a →
        ∃ name, (name, a) ∈ ips) ∧
      (selectInterface timeout ips race).outcome ≠ .indexOutOfRange) := by
  constructor
  · intro timeout race
    simp [selectInterface]
  · intro timeout ips race hne
    match ips, hne with
    | [(name, addr)], _ =>
      have hrun : selectInterface timeout [(name, addr)] race = ⟨[], .returned addr⟩ := by
        simp [selectInterface]
      rw [hrun]
      refine ⟨?_, by simp⟩
      intro a ha
      refine ⟨name, ?_⟩
      simp only [Outcome.returned.injEq] at ha
      simp [ha]
    | p :: q :: t, _ =>
      have h : 2 ≤ (p :: q :: t).length := by simp
      cases race with
      | timerFirst =>
        obtain ⟨name, _, hmem, _, hrun⟩ := timerFirst_run timeout h
        rw [hrun]
        refine ⟨?_, by simp⟩
        intro a ha
        simp only [Outcome.returned.injEq] at ha
        exact ⟨name, ha ▸ hmem⟩
      | inputFirst scan =>
        by_cases hok : 0 ≤ scan.getD 0 ∧ scan.getD 0 < ((p :: q :: t).length : Int)
        · obtain ⟨name, _, hmem, hrun⟩ := inputFirst_run_valid timeout h scan hok.1 hok.2
          rw [hrun]
          refine ⟨?_, by simp⟩
          intro a ha
          simp only [Outcome.returned.injEq] at ha
          exact ⟨name, ha ▸ hmem⟩
        · have hbad : scan.getD 0 < 0 ∨ ((p :: q :: t).length : Int) ≤ scan.getD 0 := by
            by_contra hcon
            push_neg at hcon
            exact hok ⟨hcon.1, hcon.2⟩
          rw [inputFirst_run_invalid timeout h scan hbad]
          exact ⟨by simp, by simp⟩

/-- The non-empty case on a host with two interfaces. -/
theorem selectInterface_empty_or_value_witness :
    (∀ a, (selectInterface 5 twoNICs .timerFirst).outcome = .returned a →
        ∃ name, (name, a) ∈ twoNICs) ∧
      (selectInterface 5 twoNICs .timerFirst).outcome ≠ .indexOutOfRange :=
  selectInterface_empty_or_value.2 5 twoNICs .timerFirst (by decide)

/-! ### Facts about the upload workers -/

theorem osOpenFile_create_eq_none (env : Env) (disk : Disk) (path : String) :
    osOpenFile env disk path [.O_WRONLY, .O_CREATE] = none ↔ env.openErr path = true := by
  unfold osOpenFile
  by_cases h : env.openErr path = true
  · simp [h]
  · cases hd : disk path <;> simp [h, hd]

theorem worker_sent (env : Env) (form : Nat → FormFile) (disk : Disk) (idx : Nat) :
    (worker env form disk idx).sent = (slotStat env form idx).toList := by
  unfold worker slotStat slotName
  cases hf : form idx with
  | err => simp
  | ok file fname =>
    by_cases hn : fname = ""
    · simp [hn]
    · simp only [hn, if_false, Option.map_some']
      cases ho : osOpenFile env disk (env.join env.upDirectory fname) [.O_WRONLY, .O_CREATE] with
      | none =>
        have := (osOpenFile_create_eq_none _ _ _).1 ho
        simp [destFails, this]
      | some d =>
        have : env.openErr (env.join env.upDirectory fname) = false := by
          cases he : env.openErr (env.join env.upDirectory fname) with
          | false => rfl
          | true =>
            rw [(osOpenFile_create_eq_none _ _ _).2 he] at ho
            cases ho
        simp [destFails, this]

theorem runWorkers_sent (env : Env) (form : Nat → FormFile) :
    ∀ (order : List Nat) (disk : Disk),
      (runWorkers env form disk order).2 = order.filterMap (slotStat env form)
  | [], _ => rfl
  | idx :: rest, disk => by
    simp only [runWorkers, worker_sent, runWorkers_sent env form rest, List.filterMap_cons]
    cases slotStat env form idx <;> simp

theorem namesWith_filterMap (env : Env) (form : Nat → FormFile) (b : Bool) :
    ∀ l : List Nat, namesWith b (l.filterMap (slotStat env form)) =
      (l.filterMap (slotName form)).filter (fun f => (!destFails env f) == b)
  | [] => rfl
  | idx :: rest => by
    have ih := namesWith_filterMap env form b rest
    unfold namesWith at ih ⊢
    simp only [List.filterMap_cons, slotStat]
    cases hs : slotName form idx with
    | none => simpa using ih
    | some f =>
      simp only [Option.map_some', List.filter_cons]
      by_cases hb : ((!destFails env f) == b) = true
      · simp [hb, ih]
      · simp [hb, ih]

/-- The strings the collector builds: each name preceded by a comma. -/
theorem collector_eq (stats : List upStat) :
    collector stats =
      ((namesWith true stats).foldl (fun acc n => acc ++ ("," ++ n)) "",
       (namesWith false stats).foldl (fun acc n => acc ++ ("," ++ n)) "") := by
  unfold collector
  suffices hgen : ∀ (l : List upStat) (a b : String),
      l.foldl (fun acc v => if v.isOk then (acc.1 ++ ("," ++ v.name), acc.2)
        else (acc.1, acc.2 ++ ("," ++ v.name))) (a, b) =
      ((namesWith true l).foldl (fun acc n => acc ++ ("," ++ n)) a,
       (namesWith false l).foldl (fun acc n => acc ++ ("," ++ n)) b) from hgen stats "" ""
  intro l
  induction l with
  | nil => intro a b; rfl
  | cons v t ih =>
    intro a b
    cases hv : v.isOk <;> simp [List.foldl_cons, hv, ih, namesWith]

theorem commaFold_eq (ns : List String) :
    ∀ acc : String, ns.foldl (fun a n => a ++ ("," ++ n)) ("," ++ acc) =
      "," ++ String.intercalate.go acc "," ns := by
  induction ns with
  | nil => intro acc; rfl
  | cons n t ih =>
    intro acc
    simp only [List.foldl_cons, String.intercalate.go]
    rw [← ih]
    simp [String.append_assoc]

theorem replaceFirstComma_fold (names : List String) :
    replaceFirstComma (names.foldl (fun a n => a ++ ("," ++ n)) "") =
      ",".intercalate names := by
  cases names with
  | nil => rfl
  | cons n t =>
    simp only [List.foldl_cons, String.intercalate]
    have h0 : ("" : String) ++ ("," ++ n) = "," ++ n := by simp
    rw [h0, commaFold_eq]
    unfold replaceFirstComma
    apply String.ext
    simp

theorem collector_concat (l : List upStat) (v : upStat) :
    collector (l ++ [v]) =
      if v.isOk then ((collector l).1 ++ ("," ++ v.name), (collector l).2)
      else ((collector l).1, (collector l).2 ++ ("," ++ v.name)) := by
  simp [collector, List.foldl_append]

/-- The statuses sent do not depend on where the collector's last append
falls. -/
theorem uploadHandler_sent (env : Env) (method : String) (form : Nat → FormFile)
    (disk : Disk) (order : List Nat) (pr pw : Nat) (hm : method ≠ "GET") :
    (uploadHandler env method form disk order pr pw).2.1 =
      order.filterMap (slotStat env form) := by
  simp [uploadHandler, hm, runWorkers_sent]

/-- When the collector has finished before the handler goes on, the page shows
what the collector built from every status, less the leading comma. -/
theorem uploadHandler_synchronised (env : Env) (method : String) (form : Nat → FormFile)
    (disk : Disk) (order : List Nat) (hm : method ≠ "GET") :
    (uploadHandler env method form disk order 0 0).1 =
      .upResult (replaceFirstComma (collector (runWorkers env form disk order).2).1)
        (replaceFirstComma (collector (runWorkers env form disk order).2).2) := by
  have hi : interleave 0 0 = [.collectorRead, .collectorWrite, .readOk, .writeOk,
      .readFailed, .writeFailed, .render] := by decide
  simp only [uploadHandler, hm, if_false, hi]
  rcases List.eq_nil_or_concat (runWorkers env form disk order).2 with h | ⟨l, v, h⟩
  · rw [h]
    simp [access, collector]
  · rw [h, List.concat_eq_append, collector_concat]
    cases hv : v.isOk <;> simp [access, hv]

/-- What holds of the statuses sent in every run of a POST, and of the page in
the runs in which the collector has finished before the handler goes on: a
worker whose slot is empty sends nothing and a worker whose slot is populated
sends exactly one status; the number of statuses is the number of populated
slots, at most 5; the failed names are the filenames of the populated slots
whose destination could not be opened, the succeeded names those of all other
populated slots; and the synchronised page shows the two lists joined by
commas. -/
theorem uploadHandler_sent_outcomes (env : Env) (method : String) (form : Nat → FormFile)
    (disk : Disk) (order : List Nat) (pr pw : Nat) (hm : method ≠ "GET")
    (ho : order.Perm slotIndices) :
    (∀ d idx, slotName form idx = none → (worker env form d idx).sent = []) ∧
    (∀ d idx f, slotName form idx = some f →
      (worker env form d idx).sent = [⟨f, !destFails env f⟩]) ∧
    (uploadHandler env method form disk order pr pw).2.1.length
      = (populatedNames form).length ∧
    (uploadHandler env method form disk order pr pw).2.1.length ≤ maxUploadFileNum ∧
    (namesWith false (uploadHandler env method form disk order pr pw).2.1).Perm
      ((populatedNames form).filter (fun f => destFails env f)) ∧
    (namesWith true (uploadHandler env method form disk order pr pw).2.1).Perm
      ((populatedNames form).filter (fun f => !destFails env f)) ∧
    (uploadHandler env method form disk order 0 0).1 =
      .upResult
        (",".intercalate (namesWith true (uploadHandler env method form disk order 0 0).2.1))
        (",".intercalate (namesWith false (uploadHandler env method form disk order 0 0).2.1)) := by
  have hstats := uploadHandler_sent env method form disk order pr pw hm
  have hstats0 := uploadHandler_sent env method form disk order 0 0 hm
  have hperm : (order.filterMap (slotStat env form)).Perm
      (slotIndices.filterMap (slotStat env form)) := ho.filterMap _
  have hlen : (slotIndices.filterMap (slotStat env form)).length
      = (populatedNames form).length := by
    unfold populatedNames slotStat
    rw [← List.map_filterMap, List.length_map]
  refine ⟨?_, ?_, ?_, ?_, ?_, ?_, ?_⟩
  · intro d idx h
    simp [worker_sent, slotStat, h]
  · intro d idx f h
    simp [worker_sent, slotStat, h]
  · rw [hstats, hperm.length_eq, hlen]
  · rw [hstats, hperm.length_eq]
    exact (List.length_filterMap_le _ _).trans (by simp [slotIndices])
  · rw [hstats]
    have h1 : (namesWith false (order.filterMap (slotStat env form))).Perm
        (namesWith false (slotIndices.filterMap (slotStat env form))) :=
      (hperm.filter _).map _
    refine h1.trans ?_
    rw [namesWith_filterMap]
    unfold populatedNames
    have : (fun f => (!destFails env f) == false) = fun f => destFails env f := by
      funext f; cases destFails env f <;> rfl
    rw [this]
  · rw [hstats]
    have h1 : (namesWith true (order.filterMap (slotStat env form))).Perm
        (namesWith true (slotIndices.filterMap (slotStat env form))) :=
      (hperm.filter _).map _
    refine h1.trans ?_
    rw [namesWith_filterMap]
    unfold populatedNames
    have : (fun f => (!destFails env f) == true) = fun f => !destFails env f := by
      funext f; cases destFails env f <;> rfl
    rw [this]
  · rw [hstats0, uploadHandler_synchronised env method form disk order hm, runWorkers_sent,
      collector_eq, replaceFirstComma_fold, replaceFirstComma_fold]

/-- C6 (the code at the failing input): the demo request populates slots 1, 2
and 3 and the workers send `(a.txt, true)`, `(ro.txt, false)`, `(b.txt, true)`
in that order, one status per populated slot. When the collector's append of
the last status is written only after the handler has rendered, or between the
handler's read and write of `okFiles`, the page lists `a.txt` alone as
succeeded: `b.txt` is on neither list. When it is written between the handler's
write and the rendering, from a value read before that write, the succeeded
list keeps its leading comma. Only when the collector finished first does the
page hold `a.txt,b.txt`. -/
theorem uploadHandler_page_misses_last :
    (uploadHandler demoEnv "POST" demoForm demoDisk [1, 2, 3, 4, 5] 0 5).2.1 =
      [⟨"a.txt", true⟩, ⟨"ro.txt", false⟩, ⟨"b.txt", true⟩] ∧
    populatedNames demoForm = ["a.txt", "ro.txt", "b.txt"] ∧
    (uploadHandler demoEnv "POST" demoForm demoDisk [1, 2, 3, 4, 5] 0 5).1 =
      .upResult "a.txt" "ro.txt" ∧
    (uploadHandler demoEnv "POST" demoForm demoDisk [1, 2, 3, 4, 5] 0 1).1 =
      .upResult "a.txt" "ro.txt" ∧
    (uploadHandler demoEnv "POST" demoForm demoDisk [1, 2, 3, 4, 5] 0 2).1 =
      .upResult ",a.txt,b.txt" "ro.txt" ∧
    (uploadHandler demoEnv "POST" demoForm demoDisk [1, 2, 3, 4, 5] 0 0).1 =
      .upResult "a.txt,b.txt" "ro.txt" := by
  decide

/-- C7 (the code at the failing input): slot 3 of the demo request is populated
with `b.txt`, its destination opens, and the copy breaks off with a read error
after one of three bytes: `io.Copy` reports the error, yet the worker sends
`(b.txt, true)` and the page lists `b.txt` as succeeded. The same happens when
the write fails: on the full disk the copy of `a.txt` stops after one of two
bytes and the worker sends `(a.txt, true)`. A destination that cannot be
opened (slot 2, `ro.txt`) is sent as failed. -/
theorem worker_broken_copy_sent_ok :
    (ioCopy fullDiskEnv demoDisk "up/a.txt" ⟨[9, 9], none⟩).2 = (1, true) ∧
    (worker fullDiskEnv demoForm demoDisk 1).sent = [⟨"a.txt", true⟩] ∧
    (ioCopy demoEnv demoDisk "up/b.txt" ⟨[7, 8, 9], some 1⟩).2 = (1, true) ∧
    (worker demoEnv demoForm demoDisk 3).sent = [⟨"b.txt", true⟩] ∧
    (worker demoEnv demoForm demoDisk 3).disk "up/b.txt" = some [7] ∧
    (worker demoEnv demoForm demoDisk 2).sent = [⟨"ro.txt", false⟩] ∧
    (uploadHandler demoEnv "POST" demoForm demoDisk [1, 2, 3, 4, 5] 0 0).1 =
      .upResult "a.txt,b.txt" "ro.txt" := by
  decide

/-- What a worker whose destination opens leaves on disk: the bytes the copy
wrote, followed by whatever the previous file held beyond them. -/
theorem worker_disk_of_open (env : Env) (form : Nat → FormFile) (disk : Disk) (idx : Nat)
    (file : Stream) (fname : String) (hf : form idx = .ok file fname) (hn : fname ≠ "")
    (ho : env.openErr (env.join env.upDirectory fname) = false)
    (hr : file.readErrAt = none) (hw : env.writeErrAt (env.join env.upDirectory fname) = none) :
    (worker env form disk idx).disk (env.join env.upDirectory fname) =
      some (file.bytes ++ ((disk (env.join env.upDirectory fname)).getD []).drop
        file.bytes.length) := by
  unfold worker
  simp only [hf, hn, if_false]
  unfold osOpenFile
  simp only [ho, Bool.false_eq_true, if_false]
  cases hd : disk (env.join env.upDirectory fname) <;>
    simp [ioCopy, hr, hw, writeAtStart]

/-- C8 (the code at the failing input): the upload root holds `a.txt` with the
five bytes 1 2 3 4 5 and slot 1 uploads `a.txt` with the two bytes 9 9. The
copy succeeds in full and the worker sends `(a.txt, true)`, yet the file then
holds 9 9 3 4 5 and not 9 9: the destination is opened without `O_TRUNC`. -/
theorem worker_keeps_old_tail :
    (ioCopy demoEnv demoDisk "up/a.txt" ⟨[9, 9], none⟩).2 = (2, false) ∧
    (worker demoEnv demoForm demoDisk 1).sent = [⟨"a.txt", true⟩] ∧
    (worker demoEnv demoForm demoDisk 1).disk "up/a.txt" = some [9, 9, 3, 4, 5] ∧
    (worker demoEnv demoForm demoDisk 1).disk "up/a.txt" ≠ some [9, 9] := by
  decide

/-! ### Facts about `wrapFSHandler` and the listing filter -/

/-- C9 (the code at the failing input): the request `/file/pics/?sort=name`
has the path `/file/pics/`, which ends in the separator, and carries a query
string; the handler calls the wrapped handler without writing the header
first. The request `/file/a.txt?dir=/` has the path `/file/a.txt`, which does
not end in the separator; the handler writes the header in front of what the
wrapped handler serves. -/
theorem wrapFSHandler_query_skips_head :
    requestPath "/file/pics/?sort=name" = "/file/pics/" ∧
    endsInSlash (requestPath "/file/pics/?sort=name") = true ∧
    wrapFSHandler "http://10.0.0.2:8000" false "/file/pics/?sort=name" = some [.serveHTTP] ∧
    requestPath "/file/a.txt?dir=/" = "/file/a.txt" ∧
    endsInSlash (requestPath "/file/a.txt?dir=/") = false ∧
    wrapFSHandler "http://10.0.0.2:8000" false "/file/a.txt?dir=/" =
      some [.executeHead ⟨"", "http://10.0.0.2:8000/upload", false,
        "http://10.0.0.2:8000/qrcode", "http://10.0.0.2:8000/index", "Get Files", 300⟩,
        .serveHTTP] := by
  decide

/-- What the handler does on every request with a non-empty `RequestURI`: the
last rune of the raw request target, query string included, decides whether
the header is written before the wrapped handler is invoked, and the wrapped
handler is invoked exactly once. -/
theorem wrapFSHandler_last_rune (baseURI : String) (noQRCode : Bool) (requestURI : String)
    (hne : requestURI ≠ "") :
    ∃ events, wrapFSHandler baseURI noQRCode requestURI = some events ∧
      events.count .serveHTTP = 1 ∧
      (endsInSlash requestURI = true →
        events = [.executeHead ⟨"", baseURI ++ uploadPattern, noQRCode, baseURI ++ qrPattern,
          baseURI ++ indexPattern, "Get Files", 300⟩, .serveHTTP]) ∧
      (endsInSlash requestURI = false → events = [.serveHTTP]) := by
  have hdata : requestURI.data ≠ [] := by
    intro h
    apply hne
    apply String.ext
    simpa using h
  obtain ⟨c, hc⟩ : ∃ c, requestURI.data.getLast? = some c := by
    cases hl : requestURI.data.getLast? with
    | none => exact absurd (List.getLast?_eq_none_iff.1 hl) hdata
    | some c => exact ⟨c, rfl⟩
  have hget : requestURI.data[requestURI.data.length - 1]? = some c := by
    rw [← List.getLast?_eq_getElem?]; exact hc
  unfold wrapFSHandler endsInSlash
  simp only [hget, hc]
  by_cases hs : c = '/'
  · subst hs
    refine ⟨[.executeHead ⟨"", baseURI ++ uploadPattern, noQRCode, baseURI ++ qrPattern,
      baseURI ++ indexPattern, "Get Files", 300⟩, .serveHTTP], by simp, ?_, by simp, by simp⟩
    simp [List.count_cons]
  · refine ⟨[.serveHTTP], by simp [hs], by simp, ?_, by simp⟩
    intro h
    simp at h
    exact absurd h hs

/-- C10: for every listing filter and directory entry, the entry appears in
the listing of a directory exactly when it is an entry of the directory and
the suffix is unset or the name ends with it, and the substring is unset or the
name contains it, and the entry is not a directory or directories are shown.
With the suffix `.jpg`, the entries `a.jpg`, `b.png`, `c.jpg` yield exactly
`a.jpg` and `c.jpg`. -/
theorem dirList_mem_iff :
    (∀ (f : ListingFilter) (entries : List DirEntry) (e : DirEntry),
      e ∈ dirList f entries ↔
        e ∈ entries ∧
        (f.suffixMatch = none ∨ ∃ s, f.suffixMatch = some s ∧ s.data <:+ e.name.data) ∧
        (f.substringMatch = none ∨ ∃ s, f.substringMatch = some s ∧ s.data <:+: e.name.data) ∧
        (e.isDir = false ∨ f.showDirectories = true)) ∧
    dirList ⟨some ".jpg", none, true⟩
        [⟨"a.jpg", false⟩, ⟨"b.png", false⟩, ⟨"c.jpg", false⟩] =
      [⟨"a.jpg", false⟩, ⟨"c.jpg", false⟩] := by
  refine ⟨?_, by decide⟩
  intro f entries e
  obtain ⟨suf, sub, showDirs⟩ := f
  obtain ⟨name, isDir⟩ := e
  unfold dirList
  rw [List.mem_filter]
  apply and_congr_right
  intro _
  unfold entryListed
  cases suf <;> cases sub <;> cases isDir <;> cases showDirs <;> simp

end Fileshare
